import Mathlib

/-
Verification of the run-scoped logging and retention subsystem of the
Text-Summarise repository, embedded from src/DynamicPrompt/logger.py
(global-selector variant) and src/StaticPrompt/logger.py (scoped
variant).

Filesystem model: a directory listing is a `List FSFile`; each file
carries its basename and an optional modification time (`none` models
`os.path.getmtime` raising).  Timestamps — both those parsed from file
names by `_parse_timestamp_from_filename` and modification times as
converted by `datetime.fromtimestamp` — live in one linearly ordered
scale: a mixed-radix `Nat` encoding of (year, month, day, hour, minute,
second), strictly monotone in `datetime` order for the in-range
components both sources produce.  Success of `os.remove` is modelled by
an oracle `removeOk : String → Bool`.  Python's `list.sort` is a stable
sort, modelled by `List.insertionSort` (also stable).
-/

/-- Numeric value of the Python `logging.DEBUG` severity. -/
def LOG_DEBUG : Nat := 10

/-- Numeric value of the Python `logging.INFO` severity. -/
def LOG_INFO : Nat := 20

/-- Numeric value of the Python `logging.WARNING` severity. -/
def LOG_WARNING : Nat := 30

/-- Mixed-radix encoding of a calendar datetime.  For components in the
ranges produced by `datetime` (month 1–12, day 1–31, hour < 24,
minute < 60, second < 60) it is strictly monotone in the lexicographic
(datetime) order, so `Nat` comparison of encodings is faithful to
Python's comparison of `datetime` objects. -/
def encodeDT (y mo d h mi s : Nat) : Nat :=
  ((((y * 13 + mo) * 32 + d) * 24 + h) * 60 + mi) * 60 + s

/-- Encoding of `datetime.fromtimestamp(0)`: the epoch, 1970-01-01 00:00:00. -/
def epochKey : Nat := encodeDT 1970 1 1 0 0 0

/-- Length of a month, as validated by `datetime` (leap years included). -/
def daysInMonth (y mo : Nat) : Nat :=
  if mo = 2 then
    if (y % 4 = 0 ∧ ¬ y % 100 = 0) ∨ y % 400 = 0 then 29 else 28
  else if mo = 4 ∨ mo = 6 ∨ mo = 9 ∨ mo = 11 then 30 else 31

/-- Validation performed by `datetime.strptime(ts, "%Y-%m-%d_%H-%M-%S")`:
the constructor raises (caught, yielding `None`) unless the fields form a
valid calendar date/time with year ≥ 1. -/
def mkValidDT (y mo d h mi s : Nat) : Option Nat :=
  if 1 ≤ y ∧ 1 ≤ mo ∧ mo ≤ 12 ∧ 1 ≤ d ∧ d ≤ daysInMonth y mo ∧
      h ≤ 23 ∧ mi ≤ 59 ∧ s ≤ 59 then
    some (encodeDT y mo d h mi s)
  else none

/-- Numeric value of an ASCII digit character. -/
def digitVal (c : Char) : Nat := c.toNat - 48

/-- Decode the 20-character window `_YYYY-MM-DD_HH-MM-SS` (the regex
group of `_TIMESTAMP_RE` together with its leading underscore), then
validate it as `strptime` does. -/
def parseTsCore : List Char → Option Nat
  | ['_', y1, y2, y3, y4, '-', m1, m2, '-', d1, d2, '_',
     h1, h2, '-', n1, n2, '-', s1, s2] =>
    if y1.isDigit ∧ y2.isDigit ∧ y3.isDigit ∧ y4.isDigit ∧
        m1.isDigit ∧ m2.isDigit ∧ d1.isDigit ∧ d2.isDigit ∧
        h1.isDigit ∧ h2.isDigit ∧ n1.isDigit ∧ n2.isDigit ∧
        s1.isDigit ∧ s2.isDigit then
      mkValidDT (digitVal y1 * 1000 + digitVal y2 * 100 + digitVal y3 * 10 + digitVal y4)
        (digitVal m1 * 10 + digitVal m2)
        (digitVal d1 * 10 + digitVal d2)
        (digitVal h1 * 10 + digitVal h2)
        (digitVal n1 * 10 + digitVal n2)
        (digitVal s1 * 10 + digitVal s2)
    else none
  | _ => none

/-- Embedding of `_parse_timestamp_from_filename` (DynamicPrompt):
`re.search` with the `$`-anchored pattern `_(\d{4}-\d{2}-\d{2}_\d{2}-\d{2}-\d{2})\.log$`
succeeds exactly when the last 24 characters of the basename are
`_YYYY-MM-DD_HH-MM-SS.log`; the result is then validated by `strptime`. -/
def parseTimestampFromFilename (name : String) : Option Nat :=
  let cs := name.data
  if cs.reverse.take 4 = ['g', 'o', 'l', '.'] then
    parseTsCore ((cs.reverse.drop 4).take 20).reverse
  else none

/-- A file of the modelled directory: its basename, and the
modification time `datetime.fromtimestamp(os.path.getmtime(p))`
(`none` when `getmtime` raises). -/
structure FSFile where
  name : String
  mtime : Option Nat
deriving DecidableEq, Repr

/-- Comparison of files by a sort-key function, the order used by the
purge helpers' `sort(key=...)` calls. -/
def keyLE (κ : FSFile → Nat) (a b : FSFile) : Prop := κ a ≤ κ b

instance (κ : FSFile → Nat) : DecidableRel (keyLE κ) :=
  fun a b => Nat.decLe (κ a) (κ b)

instance (κ : FSFile → Nat) : IsTotal FSFile (keyLE κ) :=
  ⟨fun a b => Nat.le_total (κ a) (κ b)⟩

instance (κ : FSFile → Nat) : IsTrans FSFile (keyLE κ) :=
  ⟨fun _ _ _ => Nat.le_trans⟩

/-- Strict comparison of files by key. -/
def keyLT (κ : FSFile → Nat) (a b : FSFile) : Prop := κ a < κ b

instance (κ : FSFile → Nat) : IsAntisymm FSFile (keyLT κ) :=
  ⟨fun a _ h h' => absurd (Nat.lt_trans h h') (Nat.lt_irrefl (κ a))⟩

/-- A basename ends in `.log`. -/
def endsWithLogB (name : String) : Bool :=
  decide (name.data.reverse.take 4 = ['g', 'o', 'l', '.'])

/-- Selector of the global purge (`glob.glob(os.path.join(log_dir, "*.log"))`):
every non-hidden basename ending in `.log` (glob's `*` does not match a
leading dot). -/
def matchesGlobal (name : String) : Bool :=
  endsWithLogB name && decide (¬ name.data.head? = some '.')

/-- Selector of the scoped purge
(`glob.glob(os.path.join(log_dir, f"{module_name}_*.log"))`): basenames
of the form `{module_name}_` ++ anything ++ `.log`. -/
def matchesScoped (mname name : String) : Bool :=
  let p := mname.data ++ ['_']
  decide (name.data.take p.length = p) && endsWithLogB name &&
    decide (p.length + 4 ≤ name.data.length)

/-- Sort key of `_purge_old_logs_global`: the filename timestamp when
parseable, else the modification time, else the epoch. -/
def sortKeyD (f : FSFile) : Nat :=
  match parseTimestampFromFilename f.name with
  | some ts => ts
  | none =>
    match f.mtime with
    | some m => m
    | none => epochKey

/-- Sort key of `_purge_old_timestamped_logs`: `os.path.getmtime` alone
(total on files whose mtime is readable). -/
def sortKeyS (f : FSFile) : Nat := f.mtime.getD 0

/-- Files of the listing matched by the global selector. -/
def matchedGlobal (listing : List FSFile) : List FSFile :=
  listing.filter (fun f => matchesGlobal f.name)

/-- Files of the listing matched by the scoped selector. -/
def matchedScoped (mname : String) (listing : List FSFile) : List FSFile :=
  listing.filter (fun f => matchesScoped mname f.name)

/-- Deletion candidates of the global purge: `file_infos[:num_to_delete]`
after the stable sort, taken only when `total > keep`. -/
def candidatesD (listing : List FSFile) (keep : Nat) : List FSFile :=
  let files := matchedGlobal listing
  let sorted := List.insertionSort (keyLE sortKeyD) files
  if files.length > keep then sorted.take (files.length - keep) else []

/-- Embedding of `_purge_old_logs_global` (DynamicPrompt): each
candidate is removed when `os.remove` succeeds and appended to the
returned list; failures are swallowed and the loop continues. -/
def purgeOldLogsGlobal (listing : List FSFile) (keep : Nat)
    (removeOk : String → Bool) : List String :=
  ((candidatesD listing keep).filter (fun f => removeOk f.name)).map
    (fun f => f.name)

/-- Deletion candidates of the scoped purge: Python's `files[:-keep]`
under the guard `len(files) > keep`, which is empty when `keep = 0`. -/
def candidatesS (mname : String) (listing : List FSFile) (keep : Nat) :
    List FSFile :=
  let files := matchedScoped mname listing
  let sorted := List.insertionSort (keyLE sortKeyS) files
  if keep = 0 then []
  else if files.length > keep then sorted.take (files.length - keep) else []

/-- Embedding of `_purge_old_timestamped_logs` (StaticPrompt): `none`
models the pass raising, which happens exactly when some matched file's
mtime is unreadable while the match set is non-empty (the sort's key
calls `os.path.getmtime` outside any `try`). -/
def purgeScoped (mname : String) (listing : List FSFile) (keep : Nat)
    (removeOk : String → Bool) : Option (List String) :=
  let files := matchedScoped mname listing
  if files.isEmpty then some []
  else if files.all (fun f => f.mtime.isSome) then
    some (((candidatesS mname listing keep).filter
      (fun f => removeOk f.name)).map (fun f => f.name))
  else none

/-- One attached output sink (a `logging` handler) of a session. -/
structure Sink where
  isFile : Bool
  filename : Option String
  level : Nat
  backupCount : Option Nat
  utf8 : Bool
  rotateWhen : Option String
  fmt : String
deriving DecidableEq, Repr

/-- Line format shared by both handlers. -/
def logFormat : String := "%(asctime)s - %(levelname)s - %(name)s - %(message)s"

/-- Result of one `setup_logger` call: the module's handler list, the
directory contents just before the in-call retention pass, the contents
after it, and the paths the pass deleted. -/
structure SetupOutcome where
  handlers : List Sink
  fsBeforePurge : List FSFile
  fs : List FSFile
  deleted : List String
deriving DecidableEq, Repr

/-- Effect of `open(log_filename, "a").close()` (and of the file
handler's own open): create the file with mtime `now` when absent,
leave it untouched when present. -/
def touchFile (fs : List FSFile) (name : String) (nowKey : Nat) : List FSFile :=
  if fs.any (fun f => f.name == name) then fs else fs ++ [⟨name, some nowKey⟩]

/-- Remove the successfully deleted paths from the directory. -/
def applyDeletions (fs : List FSFile) (deleted : List String) : List FSFile :=
  fs.filter (fun f => ¬ deleted.contains f.name)

/-- Embedding of `setup_logger` (DynamicPrompt).  `nowStr` is the
`strftime("%Y-%m-%d_%H-%M-%S")` output and `nowKey` its encoding;
`handlers` is the current handler list of `logging.getLogger(mname)`;
`touchOk` models the advisory pre-touch succeeding.  The pre-touch runs
on every call, before the handler check; the retention pass runs on
both branches. -/
def setupLoggerDyn (mname nowStr : String) (nowKey : Nat)
    (handlers : List Sink) (fs : List FSFile) (level : Nat)
    (whenStr : String) (backupCount keep : Nat) (touchOk : Bool)
    (removeOk : String → Bool) : SetupOutcome :=
  let logFilename := mname ++ "_" ++ nowStr ++ ".log"
  let fs1 := if touchOk then touchFile fs logFilename nowKey else fs
  if handlers.isEmpty then
    let fs2 := touchFile fs1 logFilename nowKey
    let fileH : Sink :=
      ⟨true, some logFilename, level, some backupCount, true, some whenStr, logFormat⟩
    let consoleH : Sink := ⟨false, none, LOG_INFO, none, false, none, logFormat⟩
    let deleted := purgeOldLogsGlobal fs2 keep removeOk
    ⟨[fileH, consoleH], fs2, applyDeletions fs2 deleted, deleted⟩
  else
    let deleted := purgeOldLogsGlobal fs1 keep removeOk
    ⟨handlers, fs1, applyDeletions fs1 deleted, deleted⟩

/-- Embedding of `setup_logger` (StaticPrompt).  No pre-touch: the log
file is created only by the `TimedRotatingFileHandler` constructor on
the first call; the repeat branch creates nothing.  `none` models the
scoped purge raising out of the call. -/
def setupLoggerStat (mname nowStr : String) (nowKey : Nat)
    (handlers : List Sink) (fs : List FSFile) (level : Nat)
    (whenStr : String) (backupCount keep : Nat)
    (removeOk : String → Bool) : Option SetupOutcome :=
  let logFilename := mname ++ "_" ++ nowStr ++ ".log"
  if handlers.isEmpty then
    let fs1 := touchFile fs logFilename nowKey
    let fileH : Sink :=
      ⟨true, some logFilename, level, some backupCount, true, some whenStr, logFormat⟩
    let consoleH : Sink := ⟨false, none, LOG_INFO, none, false, none, logFormat⟩
    match purgeScoped mname fs1 keep removeOk with
    | some deleted =>
      some ⟨[fileH, consoleH], fs1, applyDeletions fs1 deleted, deleted⟩
    | none => none
  else
    match purgeScoped mname fs keep removeOk with
    | some deleted => some ⟨handlers, fs, applyDeletions fs deleted, deleted⟩
    | none => none

/-- Oracle under which every `os.remove` succeeds. -/
def allOk : String → Bool := fun _ => true

/-- Oracle that fails exactly on `svc_2024-01-01_00-00-00.log`
(modelling, e.g., the file being removed concurrently). -/
def demoOk : String → Bool := fun x =>
  decide (¬ x = "svc_2024-01-01_00-00-00.log")

/-- Concrete directory listing used by the witnesses. -/
def demoFs : List FSFile :=
  [⟨"svc_2024-01-03_00-00-00.log", some (encodeDT 2024 1 3 0 0 0)⟩,
   ⟨"svc_2024-01-01_00-00-00.log", some (encodeDT 2024 1 1 0 0 0)⟩,
   ⟨"other_2024-01-01_00-00-00.log", some (encodeDT 2024 1 1 0 0 0)⟩,
   ⟨"svc_2024-01-02_00-00-00.log", some (encodeDT 2024 1 2 0 0 0)⟩,
   ⟨"notes.txt", some 5⟩]

/-- Concrete directory of three `svc` session files with distinct
parseable timestamps whose mtime order agrees with the name order. -/
def demo2 : List FSFile :=
  [⟨"svc_2024-01-03_00-00-00.log", some 30⟩,
   ⟨"svc_2024-01-01_00-00-00.log", some 10⟩,
   ⟨"svc_2024-01-02_00-00-00.log", some 20⟩]

/-- The spec's 12-file scenario: `svc_2024-01-01_00-00-00.log` through
`svc_2024-01-12_00-00-00.log`, created on their nominal days (mtimes in
name order). -/
def demo12 : List FSFile :=
  [⟨"svc_2024-01-01_00-00-00.log", some 1⟩,
   ⟨"svc_2024-01-02_00-00-00.log", some 2⟩,
   ⟨"svc_2024-01-03_00-00-00.log", some 3⟩,
   ⟨"svc_2024-01-04_00-00-00.log", some 4⟩,
   ⟨"svc_2024-01-05_00-00-00.log", some 5⟩,
   ⟨"svc_2024-01-06_00-00-00.log", some 6⟩,
   ⟨"svc_2024-01-07_00-00-00.log", some 7⟩,
   ⟨"svc_2024-01-08_00-00-00.log", some 8⟩,
   ⟨"svc_2024-01-09_00-00-00.log", some 9⟩,
   ⟨"svc_2024-01-10_00-00-00.log", some 10⟩,
   ⟨"svc_2024-01-11_00-00-00.log", some 11⟩,
   ⟨"svc_2024-01-12_00-00-00.log", some 12⟩]

/-- First call of the DynamicPrompt `setup_logger` in the concrete
two-call scenario (fresh logger, empty directory). -/
def dynOut1 : SetupOutcome :=
  setupLoggerDyn "svc" "2024-01-01_00-00-00" (encodeDT 2024 1 1 0 0 0)
    [] [] LOG_DEBUG "midnight" 7 10 true allOk

/-- Second call of the DynamicPrompt `setup_logger`, five seconds
later, on the state left by the first call. -/
def dynOut2 : SetupOutcome :=
  setupLoggerDyn "svc" "2024-01-01_00-00-05" (encodeDT 2024 1 1 0 0 5)
    dynOut1.handlers dynOut1.fs LOG_DEBUG "midnight" 7 10 true allOk

/-- First call of the StaticPrompt `setup_logger` in the concrete
two-call scenario. -/
def statOut1 : Option SetupOutcome :=
  setupLoggerStat "svc" "2024-01-01_00-00-00" (encodeDT 2024 1 1 0 0 0)
    [] [] LOG_DEBUG "midnight" 7 10 allOk

/-- Outcome of the first StaticPrompt call of the concrete two-call
scenario (computed by hand, checked by evaluation in the witnesses). -/
def statOutcome1 : SetupOutcome :=
  ⟨[⟨true, some "svc_2024-01-01_00-00-00.log", LOG_DEBUG, some 7, true,
      some "midnight", logFormat⟩,
    ⟨false, none, LOG_INFO, none, false, none, logFormat⟩],
   [⟨"svc_2024-01-01_00-00-00.log", some (encodeDT 2024 1 1 0 0 0)⟩],
   [⟨"svc_2024-01-01_00-00-00.log", some (encodeDT 2024 1 1 0 0 0)⟩],
   []⟩

/-- Outcome of the second StaticPrompt call of the concrete two-call
scenario: same sinks, same directory, nothing deleted. -/
def statOutcome2 : SetupOutcome :=
  ⟨statOutcome1.handlers, statOutcome1.fs, statOutcome1.fs, []⟩

/-- The stable sort used by both purge helpers permutes its input. -/
theorem sortBy_perm (κ : FSFile → Nat) (l : List FSFile) :
    List.Perm (List.insertionSort (keyLE κ) l) l :=
  List.perm_insertionSort _ l

/-- The stable sort produces a list sorted by key. -/
theorem sortBy_sorted (κ : FSFile → Nat) (l : List FSFile) :
    List.Sorted (keyLE κ) (List.insertionSort (keyLE κ) l) :=
  List.sorted_insertionSort _ l

/-- In a sorted list, every element of `take m` is related to every
element of `drop m`. -/
theorem sorted_take_le_drop {r : FSFile → FSFile → Prop} {l : List FSFile}
    (h : List.Sorted r l) (m : Nat) :
    ∀ x ∈ l.take m, ∀ y ∈ l.drop m, r x y := by
  have h2 : List.Pairwise r (l.take m ++ l.drop m) := by
    rw [List.take_append_drop]
    exact h
  exact (List.pairwise_append.mp h2).2.2

/-- With pairwise-distinct keys, every element of the first `m` sorted
positions has a strictly smaller key than every input element outside
those positions. -/
theorem sorted_take_strict (κ : FSFile → Nat) (files : List FSFile) (m : Nat)
    (hnd : (files.map κ).Nodup) :
    ∀ f ∈ (List.insertionSort (keyLE κ) files).take m, ∀ g ∈ files,
      g ∉ (List.insertionSort (keyLE κ) files).take m → κ f < κ g := by
  intro f hf g hg hgout
  have hperm : List.Perm (List.insertionSort (keyLE κ) files) files :=
    sortBy_perm κ files
  have hsorted := sortBy_sorted κ files
  have hnds : ((List.insertionSort (keyLE κ) files).map κ).Nodup :=
    ((hperm.map κ).nodup_iff).mpr hnd
  have hmem : g ∈ List.insertionSort (keyLE κ) files := hperm.mem_iff.mpr hg
  have hsplit : g ∈ (List.insertionSort (keyLE κ) files).take m ++
      (List.insertionSort (keyLE κ) files).drop m := by
    rw [List.take_append_drop]
    exact hmem
  have hgdrop : g ∈ (List.insertionSort (keyLE κ) files).drop m := by
    rcases List.mem_append.mp hsplit with h | h
    · exact absurd h hgout
    · exact h
  have hle : keyLE κ f g := sorted_take_le_drop hsorted m f hf g hgdrop
  have hnodupTD : ((List.insertionSort (keyLE κ) files).take m ++
      (List.insertionSort (keyLE κ) files).drop m).Nodup := by
    rw [List.take_append_drop]
    exact hnds.of_map
  have hne : f ≠ g := by
    intro heq
    exact (List.nodup_append.mp hnodupTD).2.2 (heq ▸ hf) hgdrop
  have hkne : κ f ≠ κ g := fun hk =>
    hne (List.inj_on_of_nodup_map hnds (List.mem_of_mem_take hf) hmem hk)
  exact Nat.lt_of_le_of_ne hle hkne

/-- A file with strictly minimal key among the input heads the sorted
order. -/
theorem sorted_head_of_strict_min (κ : FSFile → Nat) (files : List FSFile)
    (u : FSFile) (hu : u ∈ files)
    (hmin : ∀ g ∈ files, g ≠ u → κ u < κ g) :
    ∃ t, List.insertionSort (keyLE κ) files = u :: t := by
  have hperm : List.Perm (List.insertionSort (keyLE κ) files) files := sortBy_perm κ files
  have hsorted := sortBy_sorted κ files
  have hus : u ∈ List.insertionSort (keyLE κ) files := hperm.mem_iff.mpr hu
  cases hcase : List.insertionSort (keyLE κ) files with
  | nil => rw [hcase] at hus; exact absurd hus (List.not_mem_nil u)
  | cons h t =>
    by_cases hEq : h = u
    · exact ⟨t, by rw [hEq]⟩
    · exfalso
      have hhf : h ∈ files := hperm.mem_iff.mp (hcase ▸ List.mem_cons_self h t)
      have hlt : κ u < κ h := hmin h hhf hEq
      have hut : u ∈ t := by
        rw [hcase] at hus
        rcases List.mem_cons.mp hus with h1 | h1
        · exact absurd h1.symm hEq
        · exact h1
      have hle : keyLE κ h u := by
        rw [hcase] at hsorted
        exact List.rel_of_sorted_cons hsorted u hut
      exact absurd hle (Nat.not_le_of_lt hlt)

/-- Mapping names commutes with filtering by a name predicate. -/
theorem map_name_filter (p : String → Bool) (l : List FSFile) :
    (l.filter (fun f => p f.name)).map (fun f => f.name) =
      (l.map (fun f => f.name)).filter p := by
  induction l with
  | nil => rfl
  | cons a t ih =>
    by_cases h : p a.name
    · simp [h, ih]
    · simp [h, ih]

/-- With pairwise-distinct keys the stable sort is determined by the
input up to permutation: any two listings with the same contents sort
identically. -/
theorem sort_eq_of_perm_of_nodup_keys (κ : FSFile → Nat)
    {l₁ l₂ : List FSFile} (hp : List.Perm l₁ l₂) (hnd : (l₁.map κ).Nodup) :
    List.insertionSort (keyLE κ) l₁ = List.insertionSort (keyLE κ) l₂ := by
  have hperm : List.Perm (List.insertionSort (keyLE κ) l₁) (List.insertionSort (keyLE κ) l₂) :=
    ((sortBy_perm κ l₁).trans hp).trans (sortBy_perm κ l₂).symm
  have hnd₁ : ((List.insertionSort (keyLE κ) l₁).map κ).Nodup :=
    (((sortBy_perm κ l₁).map κ).nodup_iff).mpr hnd
  have hnd₂ : ((List.insertionSort (keyLE κ) l₂).map κ).Nodup :=
    ((hperm.map κ).nodup_iff).mp hnd₁
  have hstrict : ∀ (s : List FSFile), (s.map κ).Nodup →
      List.Sorted (keyLE κ) s → List.Sorted (keyLT κ) s := by
    intro s hnds hsorted
    have hpne : s.Pairwise (fun a b => κ a ≠ κ b) :=
      List.pairwise_map.mp hnds
    exact (List.Pairwise.and hsorted hpne).imp
      (fun hab => Nat.lt_of_le_of_ne hab.1 hab.2)
  exact List.eq_of_perm_of_sorted hperm
    (hstrict _ hnd₁ (sortBy_sorted κ l₁)) (hstrict _ hnd₂ (sortBy_sorted κ l₂))

/-- Every candidate of the global pass is a matched file. -/
theorem candidatesD_subset {listing : List FSFile} {keep : Nat} {f : FSFile}
    (h : f ∈ candidatesD listing keep) : f ∈ matchedGlobal listing := by
  simp only [candidatesD] at h
  by_cases hc : (matchedGlobal listing).length > keep
  · rw [if_pos hc] at h
    exact (sortBy_perm sortKeyD (matchedGlobal listing)).mem_iff.mp
      (List.mem_of_mem_take h)
  · rw [if_neg hc] at h
    exact absurd h (List.not_mem_nil f)

/-- Every candidate of the scoped pass is a matched file. -/
theorem candidatesS_subset {mname : String} {listing : List FSFile}
    {keep : Nat} {f : FSFile}
    (h : f ∈ candidatesS mname listing keep) : f ∈ matchedScoped mname listing := by
  simp only [candidatesS] at h
  by_cases h0 : keep = 0
  · rw [if_pos h0] at h
    exact absurd h (List.not_mem_nil f)
  · rw [if_neg h0] at h
    by_cases hc : (matchedScoped mname listing).length > keep
    · rw [if_pos hc] at h
      exact (sortBy_perm sortKeyS (matchedScoped mname listing)).mem_iff.mp
        (List.mem_of_mem_take h)
    · rw [if_neg hc] at h
      exact absurd h (List.not_mem_nil f)

/-- The global pass deletes at most `count - keep` files. -/
theorem purgeD_length_le (listing : List FSFile) (keep : Nat)
    (ok : String → Bool) :
    (purgeOldLogsGlobal listing keep ok).length ≤
      (matchedGlobal listing).length - keep := by
  simp only [purgeOldLogsGlobal]
  rw [List.length_map]
  refine Nat.le_trans (List.length_filter_le _ _) ?_
  simp only [candidatesD]
  by_cases hc : (matchedGlobal listing).length > keep
  · rw [if_pos hc]
    exact List.length_take_le _ _
  · rw [if_neg hc]
    exact Nat.zero_le _

/-- Everything the global pass deletes is a matched, deletable name. -/
theorem purgeD_mem {listing : List FSFile} {keep : Nat} {ok : String → Bool}
    {x : String} (h : x ∈ purgeOldLogsGlobal listing keep ok) :
    ∃ f, f ∈ listing ∧ f.name = x ∧ matchesGlobal x = true ∧ ok x = true := by
  simp only [purgeOldLogsGlobal] at h
  rcases List.mem_map.mp h with ⟨f, hf, hfx⟩
  rcases List.mem_filter.mp hf with ⟨hfc, hok⟩
  have hm := candidatesD_subset hfc
  rcases List.mem_filter.mp hm with ⟨hfl, hmat⟩
  exact ⟨f, hfl, hfx, by rw [← hfx]; exact hmat, by rw [← hfx]; exact hok⟩

/-- A successful scoped pass returns exactly the deletable candidates'
names, in candidate order. -/
theorem purgeS_some_eq {mname : String} {listing : List FSFile} {keep : Nat}
    {ok : String → Bool} {res : List String}
    (h : purgeScoped mname listing keep ok = some res) :
    res = ((candidatesS mname listing keep).filter
      (fun f => ok f.name)).map (fun f => f.name) := by
  simp only [purgeScoped] at h
  by_cases h1 : (matchedScoped mname listing).isEmpty = true
  · rw [if_pos h1] at h
    have hres : res = [] := (Option.some.inj h).symm
    have hempty : matchedScoped mname listing = [] := List.isEmpty_iff.mp h1
    simp [candidatesS, hempty, hres]
  · rw [if_neg h1] at h
    by_cases h2 : (matchedScoped mname listing).all (fun f => f.mtime.isSome) = true
    · rw [if_pos h2] at h
      exact (Option.some.inj h).symm
    · rw [if_neg h2] at h
      exact absurd h (by simp)

/-- Everything a successful scoped pass deletes is a matched, deletable
name. -/
theorem purgeS_mem {mname : String} {listing : List FSFile} {keep : Nat}
    {ok : String → Bool} {res : List String} {x : String}
    (h : purgeScoped mname listing keep ok = some res) (hx : x ∈ res) :
    ∃ f, f ∈ listing ∧ f.name = x ∧ matchesScoped mname x = true ∧
      ok x = true := by
  rw [purgeS_some_eq h] at hx
  rcases List.mem_map.mp hx with ⟨f, hf, hfx⟩
  rcases List.mem_filter.mp hf with ⟨hfc, hok⟩
  have hm := candidatesS_subset hfc
  rcases List.mem_filter.mp hm with ⟨hfl, hmat⟩
  exact ⟨f, hfl, hfx, by rw [← hfx]; exact hmat, by rw [← hfx]; exact hok⟩

/-- A matching basename ends in the character `g`. -/
theorem endsWithLog_getLast {name : String} (h : endsWithLogB name = true) :
    name.data.getLast? = some 'g' := by
  have h4 : name.data.reverse.take 4 = ['g', 'o', 'l', '.'] := by
    simpa [endsWithLogB] using h
  rw [← List.head?_reverse]
  cases hrev : name.data.reverse with
  | nil => rw [hrev] at h4; simp at h4
  | cons a t =>
    rw [hrev] at h4
    simp only [List.take] at h4
    rw [List.head?]
    exact congrArg some (List.cons.inj h4).1

example :
    parseTimestampFromFilename "svc_2024-01-01_00-00-00.log" =
      some (encodeDT 2024 1 1 0 0 0) := by decide

example : parseTimestampFromFilename "svc_2024-02-30_00-00-00.log" = none := by
  decide

example : parseTimestampFromFilename "svc.log" = none := by decide

example : matchesScoped "svc" "other_2024-01-01_00-00-00.log" = false := by
  decide

example :
    purgeOldLogsGlobal
      [⟨"b_2024-01-02_00-00-00.log", some 5⟩,
       ⟨"a_2024-01-01_00-00-00.log", some 9⟩] 1 (fun _ => true) =
      ["a_2024-01-01_00-00-00.log"] := by decide

/-- C4: a retention pass never deletes more than `max(0, count - keep)`
files (`count - keep` in truncated `Nat` subtraction) and never deletes
a file outside its selector's match set; in particular a scoped pass
for module `svc` never deletes `other_2024-01-01_00-00-00.log`. -/
theorem C4_retention_never_exceeds_bound (listing : List FSFile)
    (keep : Nat) (ok : String → Bool) (mname : String) :
    (purgeOldLogsGlobal listing keep ok).length ≤
        (matchedGlobal listing).length - keep ∧
    (∀ x ∈ purgeOldLogsGlobal listing keep ok,
        ∃ f, f ∈ listing ∧ f.name = x ∧ matchesGlobal x = true) ∧
    (∀ res, purgeScoped mname listing keep ok = some res →
        res.length ≤ (matchedScoped mname listing).length - keep ∧
        ∀ x ∈ res, ∃ f, f ∈ listing ∧ f.name = x ∧
          matchesScoped mname x = true) ∧
    (∀ res, purgeScoped "svc" listing keep ok = some res →
        ¬ "other_2024-01-01_00-00-00.log" ∈ res) := by
  refine ⟨purgeD_length_le listing keep ok, ?_, ?_, ?_⟩
  · intro x hx
    rcases purgeD_mem hx with ⟨f, hfl, hfx, hmat, _⟩
    exact ⟨f, hfl, hfx, hmat⟩
  · intro res hres
    constructor
    · rw [purgeS_some_eq hres, List.length_map]
      refine Nat.le_trans (List.length_filter_le _ _) ?_
      simp only [candidatesS]
      by_cases h0 : keep = 0
      · rw [if_pos h0]
        exact Nat.zero_le _
      · rw [if_neg h0]
        by_cases hc : (matchedScoped mname listing).length > keep
        · rw [if_pos hc]
          exact List.length_take_le _ _
        · rw [if_neg hc]
          exact Nat.zero_le _
    · intro x hx
      rcases purgeS_mem hres hx with ⟨f, hfl, hfx, hmat, _⟩
      exact ⟨f, hfl, hfx, hmat⟩
  · intro res hres hmem
    rcases purgeS_mem hres hmem with ⟨f, _, _, hmat, _⟩
    have hfalse : matchesScoped "svc" "other_2024-01-01_00-00-00.log" = false := by
      decide
    rw [hfalse] at hmat
    exact Bool.false_ne_true hmat

/-- Witness for C4 at a concrete directory: the bound holds, and a
successful scoped pass for `svc` (computed by evaluation) spares the
`other_` file. -/
theorem C4_witness :
    (purgeOldLogsGlobal demoFs 1 allOk).length ≤
      (matchedGlobal demoFs).length - 1 ∧
    ¬ "other_2024-01-01_00-00-00.log" ∈
      ["svc_2024-01-01_00-00-00.log", "svc_2024-01-02_00-00-00.log"] :=
  ⟨(C4_retention_never_exceeds_bound demoFs 1 allOk "svc").1,
   (C4_retention_never_exceeds_bound demoFs 1 allOk "svc").2.2.2
     ["svc_2024-01-01_00-00-00.log", "svc_2024-01-02_00-00-00.log"]
     (by decide)⟩

/-- C5: a failed deletion of an individual candidate does not raise and
does not abort the pass — the result is exactly the all-successes
result filtered to the files whose deletion succeeded, every returned
path had a successful deletion, and whether the scoped pass raises is
independent of deletion failures. -/
theorem C5_deletion_failures_swallowed (listing : List FSFile) (keep : Nat)
    (ok : String → Bool) (mname : String) :
    purgeOldLogsGlobal listing keep ok =
      (purgeOldLogsGlobal listing keep (fun _ => true)).filter ok ∧
    (∀ x ∈ purgeOldLogsGlobal listing keep ok, ok x = true) ∧
    purgeScoped mname listing keep ok =
      (purgeScoped mname listing keep (fun _ => true)).map
        (fun l => l.filter ok) ∧
    ((purgeScoped mname listing keep ok).isSome ↔
      (purgeScoped mname listing keep (fun _ => true)).isSome) := by
  have hD : ∀ (p : String → Bool),
      purgeOldLogsGlobal listing keep p =
        ((candidatesD listing keep).map (fun f => f.name)).filter p := by
    intro p
    simp only [purgeOldLogsGlobal]
    exact map_name_filter p _
  have hS : purgeScoped mname listing keep ok =
      (purgeScoped mname listing keep (fun _ => true)).map
        (fun l => l.filter ok) := by
    simp only [purgeScoped]
    by_cases h1 : (matchedScoped mname listing).isEmpty = true
    · rw [if_pos h1, if_pos h1]
      simp
    · rw [if_neg h1, if_neg h1]
      by_cases h2 : (matchedScoped mname listing).all
          (fun f => f.mtime.isSome) = true
      · rw [if_pos h2, if_pos h2]
        simp only [Option.map_some']
        congr 1
        simp only [List.filter_true]
        exact map_name_filter ok _
      · rw [if_neg h2, if_neg h2]
        rfl
  refine ⟨?_, ?_, hS, ?_⟩
  · rw [hD ok, hD (fun _ => true)]
    simp
  · intro x hx
    exact (purgeD_mem hx).choose_spec.2.2.2
  · rw [hS]
    cases purgeScoped mname listing keep (fun _ => true) <;> simp

/-- Witness for C5 at a concrete directory and a deletion oracle that
fails on one candidate: the pass still returns the other candidates. -/
theorem C5_witness :
    purgeOldLogsGlobal demoFs 1 demoOk =
      (purgeOldLogsGlobal demoFs 1 (fun _ => true)).filter demoOk ∧
    purgeScoped "svc" demoFs 1 demoOk =
      (purgeScoped "svc" demoFs 1 (fun _ => true)).map
        (fun l => l.filter demoOk) :=
  ⟨(C5_deletion_failures_swallowed demoFs 1 demoOk "svc").1,
   (C5_deletion_failures_swallowed demoFs 1 demoOk "svc").2.2.1⟩

/-- C10: neither selector ever matches, deletes, or counts toward the
keep budget a file whose basename does not end in `.log`; rotated
segments carry a date suffix after `.log` (last character a digit, not
`g`) and are therefore never matched by either selector. -/
theorem C10_non_log_never_touched (listing : List FSFile) (keep : Nat)
    (ok : String → Bool) (mname : String) :
    (∀ x ∈ purgeOldLogsGlobal listing keep ok, endsWithLogB x = true) ∧
    (∀ res, purgeScoped mname listing keep ok = some res →
        ∀ x ∈ res, endsWithLogB x = true) ∧
    (∀ f l1 l2, matchesGlobal f.name = false →
        purgeOldLogsGlobal (l1 ++ f :: l2) keep ok =
          purgeOldLogsGlobal (l1 ++ l2) keep ok) ∧
    (∀ f l1 l2, matchesScoped mname f.name = false →
        purgeScoped mname (l1 ++ f :: l2) keep ok =
          purgeScoped mname (l1 ++ l2) keep ok) ∧
    (∀ name : String, ¬ name.data.getLast? = some 'g' →
        matchesGlobal name = false ∧ matchesScoped mname name = false) := by
  refine ⟨?_, ?_, ?_, ?_, ?_⟩
  · intro x hx
    rcases purgeD_mem hx with ⟨f, _, _, hmat, _⟩
    simp only [matchesGlobal, Bool.and_eq_true] at hmat
    exact hmat.1
  · intro res hres x hx
    rcases purgeS_mem hres hx with ⟨f, _, _, hmat, _⟩
    simp only [matchesScoped, Bool.and_eq_true] at hmat
    exact hmat.1.2
  · intro f l1 l2 hf
    have hm : matchedGlobal (l1 ++ f :: l2) = matchedGlobal (l1 ++ l2) := by
      simp [matchedGlobal, hf]
    simp only [purgeOldLogsGlobal, candidatesD, hm]
  · intro f l1 l2 hf
    have hm : matchedScoped mname (l1 ++ f :: l2) =
        matchedScoped mname (l1 ++ l2) := by
      simp [matchedScoped, hf]
    simp only [purgeScoped, candidatesS, hm]
  · intro name hng
    have hewl : endsWithLogB name = false := by
      cases hcase : endsWithLogB name
      · rfl
      · exact absurd (endsWithLog_getLast hcase) hng
    constructor
    · simp [matchesGlobal, hewl]
    · simp [matchesScoped, hewl]

/-- Witness for C10 at the name a midnight rotation of the file sink
would produce: it matches neither selector. -/
theorem C10_witness :
    matchesGlobal "svc_2024-01-01_00-00-00.log.2024-01-02" = false ∧
    matchesScoped "svc" "svc_2024-01-01_00-00-00.log.2024-01-02" = false :=
  (C10_non_log_never_touched [] 0 allOk "svc").2.2.2.2
    "svc_2024-01-01_00-00-00.log.2024-01-02" (by decide)

/-- When a file's name carries a parseable timestamp, that timestamp is
its global-pass sort key. -/
theorem sortKeyD_of_parse {f : FSFile} {ts : Nat}
    (h : parseTimestampFromFilename f.name = some ts) : sortKeyD f = ts := by
  simp [sortKeyD, h]

/-- The global candidate list is always the first `count - keep` files
of the sorted matched files (the guard only avoids an empty take). -/
theorem candidatesD_eq (listing : List FSFile) (keep : Nat) :
    candidatesD listing keep =
      (List.insertionSort (keyLE sortKeyD) (matchedGlobal listing)).take
        ((matchedGlobal listing).length - keep) := by
  simp only [candidatesD]
  by_cases hc : (matchedGlobal listing).length > keep
  · rw [if_pos hc]
  · rw [if_neg hc]
    rw [Nat.sub_eq_zero_of_le (Nat.le_of_not_lt hc), List.take_zero]

/-- For `keep ≥ 1`, the scoped candidate list is the first
`count - keep` files of the mtime-sorted matched files. -/
theorem candidatesS_eq (mname : String) (listing : List FSFile)
    {keep : Nat} (h1 : 1 ≤ keep) :
    candidatesS mname listing keep =
      (List.insertionSort (keyLE sortKeyS) (matchedScoped mname listing)).take
        ((matchedScoped mname listing).length - keep) := by
  simp only [candidatesS]
  rw [if_neg (Nat.one_le_iff_ne_zero.mp h1)]
  by_cases hc : (matchedScoped mname listing).length > keep
  · rw [if_pos hc]
  · rw [if_neg hc]
    rw [Nat.sub_eq_zero_of_le (Nat.le_of_not_lt hc), List.take_zero]

/-- With injective names on the matched set and all deletions
succeeding, a matched file's name appears among the deleted names
exactly when the file is a candidate. -/
theorem name_mem_filtered_map {c matched : List FSFile}
    {ok : String → Bool} {f : FSFile}
    (hsub : ∀ a ∈ c, a ∈ matched)
    (hinj : ∀ a ∈ matched, ∀ b ∈ matched, a.name = b.name → a = b)
    (hok : ∀ a ∈ matched, ok a.name = true) (hf : f ∈ matched) :
    f.name ∈ (c.filter (fun a => ok a.name)).map (fun a => a.name) ↔
      f ∈ c := by
  constructor
  · intro h
    rcases List.mem_map.mp h with ⟨g, hg, hgx⟩
    have hgc := (List.mem_filter.mp hg).1
    have hgf : g = f := hinj g (hsub g hgc) f hf hgx
    exact hgf ▸ hgc
  · intro h
    refine List.mem_map.mpr ⟨f, ?_, rfl⟩
    exact List.mem_filter.mpr ⟨h, hok f hf⟩

/-- C1 (amended): over matched files with distinct parseable filename
timestamps and every deletion succeeding, the global pass deletes
exactly `max(0, n - keep)` files — the oldest by parsed timestamp — for
every `keep`, including `keep = 0` (all deleted).  The scoped pass
deletes nothing when `keep = 0`, and for `keep ≥ 1` (under distinct
readable mtimes and distinct names) deletes exactly `max(0, n - keep)`
files — the oldest by modification time, not by parsed timestamp. -/
theorem C1_retention_deletes_oldest (listing : List FSFile) (keep : Nat)
    (ok : String → Bool) (mname : String)
    (hparse : ∀ f ∈ matchedGlobal listing,
      (parseTimestampFromFilename f.name).isSome = true)
    (hnd : ((matchedGlobal listing).map sortKeyD).Nodup)
    (hok : ∀ f ∈ matchedGlobal listing, ok f.name = true) :
    ((purgeOldLogsGlobal listing keep ok).length =
        (matchedGlobal listing).length - keep ∧
      ∀ f g tf tg, f ∈ matchedGlobal listing → g ∈ matchedGlobal listing →
        parseTimestampFromFilename f.name = some tf →
        parseTimestampFromFilename g.name = some tg →
        f.name ∈ purgeOldLogsGlobal listing keep ok →
        ¬ g.name ∈ purgeOldLogsGlobal listing keep ok → tf < tg) ∧
    (∀ res, purgeScoped mname listing 0 ok = some res → res = []) ∧
    (1 ≤ keep →
      ((matchedScoped mname listing).map sortKeyS).Nodup →
      ((matchedScoped mname listing).map (fun f => f.name)).Nodup →
      (∀ f ∈ matchedScoped mname listing, ok f.name = true) →
      (∀ f ∈ matchedScoped mname listing, f.mtime.isSome = true) →
      ∃ res, purgeScoped mname listing keep ok = some res ∧
        res.length = (matchedScoped mname listing).length - keep ∧
        ∀ f g, f ∈ matchedScoped mname listing →
          g ∈ matchedScoped mname listing →
          f.name ∈ res → ¬ g.name ∈ res → sortKeyS f < sortKeyS g) := by
  have hinjD : ∀ a ∈ matchedGlobal listing, ∀ b ∈ matchedGlobal listing,
      a.name = b.name → a = b := by
    intro a ha b hb hab
    apply List.inj_on_of_nodup_map hnd ha hb
    rcases Option.isSome_iff_exists.mp (hparse a ha) with ⟨ta, hta⟩
    have htb : parseTimestampFromFilename b.name = some ta := by
      rw [← hab]
      exact hta
    rw [sortKeyD_of_parse hta, sortKeyD_of_parse htb]
  have hbridge : ∀ f ∈ matchedGlobal listing,
      (f.name ∈ purgeOldLogsGlobal listing keep ok ↔
        f ∈ candidatesD listing keep) := by
    intro f hf
    exact name_mem_filtered_map (fun a ha => candidatesD_subset ha)
      hinjD hok hf
  refine ⟨⟨?_, ?_⟩, ?_, ?_⟩
  · simp only [purgeOldLogsGlobal]
    rw [List.filter_eq_self.mpr (fun a ha => hok a (candidatesD_subset ha))]
    rw [List.length_map, candidatesD_eq, List.length_take,
      List.length_insertionSort]
    exact Nat.min_eq_left (Nat.sub_le _ _)
  · intro f g tf tg hfm hgm htf htg hfd hgd
    have hf : f ∈ candidatesD listing keep := (hbridge f hfm).mp hfd
    have hg : ¬ g ∈ candidatesD listing keep := fun h =>
      hgd ((hbridge g hgm).mpr h)
    rw [candidatesD_eq] at hf hg
    have hlt := sorted_take_strict sortKeyD (matchedGlobal listing)
      ((matchedGlobal listing).length - keep) hnd f hf g hgm hg
    rw [sortKeyD_of_parse htf, sortKeyD_of_parse htg] at hlt
    exact hlt
  · intro res hres
    rw [purgeS_some_eq hres]
    simp [candidatesS]
  · intro hk1 hndS hndN hokS hmt
    have hinjS : ∀ a ∈ matchedScoped mname listing,
        ∀ b ∈ matchedScoped mname listing, a.name = b.name → a = b := by
      intro a ha b hb hab
      exact List.inj_on_of_nodup_map hndN ha hb hab
    have hall : (matchedScoped mname listing).all
        (fun f => f.mtime.isSome) = true :=
      List.all_eq_true.mpr (fun f hf => hmt f hf)
    have hsome : purgeScoped mname listing keep ok =
        some (((candidatesS mname listing keep).filter
          (fun f => ok f.name)).map (fun f => f.name)) := by
      simp only [purgeScoped]
      by_cases h1 : (matchedScoped mname listing).isEmpty = true
      · rw [if_pos h1]
        have hempty := List.isEmpty_iff.mp h1
        simp [candidatesS, hempty]
      · rw [if_neg h1, if_pos hall]
    have hbridgeS : ∀ f ∈ matchedScoped mname listing,
        (f.name ∈ ((candidatesS mname listing keep).filter
            (fun f => ok f.name)).map (fun f => f.name) ↔
          f ∈ candidatesS mname listing keep) := by
      intro f hf
      exact name_mem_filtered_map (fun a ha => candidatesS_subset ha)
        hinjS hokS hf
    refine ⟨_, hsome, ?_, ?_⟩
    · rw [List.filter_eq_self.mpr (fun a ha => hokS a (candidatesS_subset ha))]
      rw [List.length_map, candidatesS_eq mname listing hk1, List.length_take,
        List.length_insertionSort]
      exact Nat.min_eq_left (Nat.sub_le _ _)
    · intro f g hfm hgm hfd hgd
      have hf : f ∈ candidatesS mname listing keep := (hbridgeS f hfm).mp hfd
      have hg : ¬ g ∈ candidatesS mname listing keep := fun h =>
        hgd ((hbridgeS g hgm).mpr h)
      rw [candidatesS_eq mname listing hk1] at hf hg
      exact sorted_take_strict sortKeyS (matchedScoped mname listing)
        ((matchedScoped mname listing).length - keep) hndS f hf g hgm hg

/-- C1 counterexample: a scoped pass over one matched file with
`keep = 0` deletes nothing (Python's `files[:-0]` is empty), though the
claim requires all `n = 1` matched files deleted. -/
theorem C1_counterexample :
    purgeScoped "svc" [⟨"svc_2024-01-01_00-00-00.log", some 5⟩] 0 allOk =
      some [] ∧
    (matchedScoped "svc"
      [⟨"svc_2024-01-01_00-00-00.log", some 5⟩]).length = 1 := by
  constructor
  · decide
  · decide

/-- Witness for C1 on a concrete three-file directory with `keep = 1`:
the pass deletes two files, and a deleted file's timestamp precedes a
kept file's timestamp. -/
theorem C1_witness :
    (purgeOldLogsGlobal demo2 1 allOk).length =
      (matchedGlobal demo2).length - 1 ∧
    encodeDT 2024 1 1 0 0 0 < encodeDT 2024 1 3 0 0 0 :=
  ⟨(C1_retention_deletes_oldest demo2 1 allOk "svc"
      (by decide) (by decide) (by decide)).1.1,
   (C1_retention_deletes_oldest demo2 1 allOk "svc"
      (by decide) (by decide) (by decide)).1.2
     ⟨"svc_2024-01-01_00-00-00.log", some 10⟩
     ⟨"svc_2024-01-03_00-00-00.log", some 30⟩
     (encodeDT 2024 1 1 0 0 0) (encodeDT 2024 1 3 0 0 0)
     (by decide) (by decide) (by decide) (by decide) (by decide) (by decide)⟩

/-- C2 (amended): in the global variant the ordering key is the parsed
filename timestamp when present and valid, else the modification time,
else the epoch — and an unparseable file with unreadable mtime is
(strictly) oldest and is the first deletion candidate.  The scoped
variant instead keys on the modification time alone and, far from
falling back to the epoch, raises out of the pass when a matched file's
mtime is unreadable. -/
theorem C2_sort_key_definition (listing : List FSFile) (keep : Nat)
    (ok : String → Bool) (mname : String) :
    (∀ f ts, parseTimestampFromFilename f.name = some ts → sortKeyD f = ts) ∧
    (∀ f m, parseTimestampFromFilename f.name = none → f.mtime = some m →
      sortKeyD f = m) ∧
    (∀ f, parseTimestampFromFilename f.name = none → f.mtime = none →
      sortKeyD f = epochKey) ∧
    (∀ u, u ∈ matchedGlobal listing →
      parseTimestampFromFilename u.name = none → u.mtime = none →
      (∀ g ∈ matchedGlobal listing, ¬ g = u → epochKey < sortKeyD g) →
      (matchedGlobal listing).length > keep → ok u.name = true →
      (purgeOldLogsGlobal listing keep ok).head? = some u.name) ∧
    (∀ f, f ∈ matchedScoped mname listing → f.mtime = none →
      purgeScoped mname listing keep ok = none) := by
  refine ⟨?_, ?_, ?_, ?_, ?_⟩
  · intro f ts h
    simp [sortKeyD, h]
  · intro f m hp hm
    simp [sortKeyD, hp, hm]
  · intro f hp hm
    simp [sortKeyD, hp, hm]
  · intro u hu hp hm hgt hlen hok
    have hkey : sortKeyD u = epochKey := by simp [sortKeyD, hp, hm]
    have hmin : ∀ g ∈ matchedGlobal listing, g ≠ u →
        sortKeyD u < sortKeyD g := by
      intro g hg hne
      rw [hkey]
      exact hgt g hg hne
    rcases sorted_head_of_strict_min sortKeyD (matchedGlobal listing) u hu hmin
      with ⟨t, ht⟩
    have hpos : 0 < (matchedGlobal listing).length - keep :=
      Nat.sub_pos_of_lt hlen
    obtain ⟨m', hm'⟩ : ∃ m', (matchedGlobal listing).length - keep = m' + 1 :=
      ⟨(matchedGlobal listing).length - keep - 1,
        (Nat.succ_pred_eq_of_pos hpos).symm⟩
    have hc : candidatesD listing keep = u :: t.take m' := by
      rw [candidatesD_eq, ht, hm', List.take_succ_cons]
    simp only [purgeOldLogsGlobal, hc, List.filter_cons]
    rw [if_pos hok]
    rfl
  · intro f hf hm
    have h1 : ¬ (matchedScoped mname listing).isEmpty = true := by
      intro h
      rw [List.isEmpty_iff.mp h] at hf
      exact List.not_mem_nil f hf
    have hall : ¬ ((matchedScoped mname listing).all
        (fun f => f.mtime.isSome) = true) := by
      intro h
      have := List.all_eq_true.mp h f hf
      rw [hm] at this
      exact Bool.false_ne_true this
    simp only [purgeScoped]
    rw [if_neg h1, if_neg hall]

/-- C2 counterexample: in the scoped variant the file with the *newer*
parsed filename timestamp but older mtime is deleted first, so the
ordering key is not the parsed timestamp. -/
theorem C2_counterexample :
    purgeScoped "svc"
      [⟨"svc_2099-01-01_00-00-00.log", some 10⟩,
       ⟨"svc_2000-01-01_00-00-00.log", some 20⟩] 1 allOk =
      some ["svc_2099-01-01_00-00-00.log"] ∧
    parseTimestampFromFilename "svc_2099-01-01_00-00-00.log" =
      some (encodeDT 2099 1 1 0 0 0) ∧
    parseTimestampFromFilename "svc_2000-01-01_00-00-00.log" =
      some (encodeDT 2000 1 1 0 0 0) ∧
    encodeDT 2000 1 1 0 0 0 < encodeDT 2099 1 1 0 0 0 := by
  refine ⟨by decide, by decide, by decide, by decide⟩

/-- Witness for C2: a matched file with no parseable timestamp and an
unreadable mtime is the first deletion the global pass performs. -/
theorem C2_witness :
    (purgeOldLogsGlobal
      [⟨"junk.log", none⟩,
       ⟨"svc_2024-01-05_00-00-00.log", some (encodeDT 2024 1 5 0 0 0)⟩]
      1 allOk).head? = some "junk.log" :=
  (C2_sort_key_definition
      [⟨"junk.log", none⟩,
       ⟨"svc_2024-01-05_00-00-00.log", some (encodeDT 2024 1 5 0 0 0)⟩]
      1 allOk "svc").2.2.2.1 ⟨"junk.log", none⟩
    (by decide) (by decide) (by decide) (by decide) (by decide) (by decide)

/-- C6: a retention pass returns exactly the names of the successfully
deleted candidates, in the order they were deleted — which is the
oldest-first sorted order — and on the spec's 12-file `keep = 10`
scenario both variants delete exactly the two earliest files,
returning them oldest first. -/
theorem C6_returns_deleted_in_order (listing : List FSFile) (keep : Nat)
    (ok : String → Bool) (mname : String) :
    (purgeOldLogsGlobal listing keep ok =
      ((candidatesD listing keep).filter (fun f => ok f.name)).map
        (fun f => f.name)) ∧
    List.Sorted (keyLE sortKeyD)
      ((candidatesD listing keep).filter (fun f => ok f.name)) ∧
    List.Sorted (keyLE sortKeyS)
      ((candidatesS mname listing keep).filter (fun f => ok f.name)) ∧
    purgeOldLogsGlobal demo12 10 allOk =
      ["svc_2024-01-01_00-00-00.log", "svc_2024-01-02_00-00-00.log"] ∧
    purgeScoped "svc" demo12 10 allOk =
      some ["svc_2024-01-01_00-00-00.log", "svc_2024-01-02_00-00-00.log"] := by
  refine ⟨rfl, ?_, ?_, by decide, by decide⟩
  · have hsub : ((candidatesD listing keep).filter (fun f => ok f.name)).Sublist
        (List.insertionSort (keyLE sortKeyD) (matchedGlobal listing)) := by
      rw [candidatesD_eq]
      exact (List.filter_sublist _).trans (List.take_sublist _ _)
    exact List.Pairwise.sublist hsub (sortBy_sorted sortKeyD _)
  · by_cases h0 : keep = 0
    · have hc : candidatesS mname listing keep = [] := by
        simp [candidatesS, h0]
      rw [hc]
      exact List.sorted_nil
    · have hsub : ((candidatesS mname listing keep).filter
          (fun f => ok f.name)).Sublist
          (List.insertionSort (keyLE sortKeyS) (matchedScoped mname listing)) := by
        rw [candidatesS_eq mname listing (Nat.one_le_iff_ne_zero.mpr h0)]
        exact (List.filter_sublist _).trans (List.take_sublist _ _)
      exact List.Pairwise.sublist hsub (sortBy_sorted sortKeyS _)

/-- C7 (amended): matched files are sorted ascending by sort key with a
stable sort, so ties are broken by the directory-listing order, not by
filename lexical order; the candidate set is independent of the listing
order when the matched keys are pairwise distinct, and with tied keys
the first-listed file is the deletion candidate. -/
theorem C7_stable_sort_determinism (keep : Nat) (ok : String → Bool)
    (mname : String) {l1 l2 : List FSFile} (hp : List.Perm l1 l2)
    (hnd : ((matchedGlobal l1).map sortKeyD).Nodup)
    (hndS : ((matchedScoped mname l1).map sortKeyS).Nodup) :
    purgeOldLogsGlobal l1 keep ok = purgeOldLogsGlobal l2 keep ok ∧
    purgeScoped mname l1 keep ok = purgeScoped mname l2 keep ok ∧
    (∀ a b : FSFile, sortKeyD a = sortKeyD b → matchesGlobal a.name = true →
      matchesGlobal b.name = true →
      candidatesD [a, b] 1 = [a] ∧ candidatesD [b, a] 1 = [b]) := by
  have hmg : List.Perm (matchedGlobal l1) (matchedGlobal l2) :=
    hp.filter _
  have hms : List.Perm (matchedScoped mname l1) (matchedScoped mname l2) :=
    hp.filter _
  have hsorteq := sort_eq_of_perm_of_nodup_keys sortKeyD hmg hnd
  have hsorteqS := sort_eq_of_perm_of_nodup_keys sortKeyS hms hndS
  have hlen : (matchedGlobal l1).length = (matchedGlobal l2).length :=
    hmg.length_eq
  have hlenS : (matchedScoped mname l1).length =
      (matchedScoped mname l2).length := hms.length_eq
  refine ⟨?_, ?_, ?_⟩
  · simp only [purgeOldLogsGlobal, candidatesD, hsorteq, hlen]
  · have hemptyEq : (matchedScoped mname l1).isEmpty =
        (matchedScoped mname l2).isEmpty := by
      rw [Bool.eq_iff_iff, List.isEmpty_iff, List.isEmpty_iff]
      constructor
      · intro h
        rw [h] at hms
        exact hms.symm.eq_nil
      · intro h
        rw [h] at hms
        exact hms.eq_nil
    have hallEq : (matchedScoped mname l1).all (fun f => f.mtime.isSome) =
        (matchedScoped mname l2).all (fun f => f.mtime.isSome) := by
      rw [Bool.eq_iff_iff]
      simp only [List.all_eq_true]
      exact ⟨fun h f hf => h f (hms.mem_iff.mpr hf),
        fun h f hf => h f (hms.mem_iff.mp hf)⟩
    simp only [purgeScoped, candidatesS, hemptyEq, hallEq, hsorteqS, hlenS]
  · intro a b hkey ha hb
    have hle1 : keyLE sortKeyD a b := le_of_eq hkey
    have hle2 : keyLE sortKeyD b a := le_of_eq hkey.symm
    have hm1 : matchedGlobal [a, b] = [a, b] := by
      simp [matchedGlobal, List.filter, ha, hb]
    have hm2 : matchedGlobal [b, a] = [b, a] := by
      simp [matchedGlobal, List.filter, ha, hb]
    constructor
    · simp only [candidatesD, hm1]
      rw [if_pos (by simp : ([a, b] : List FSFile).length > 1)]
      simp only [List.insertionSort, List.orderedInsert]
      rw [if_pos hle1]
      simp
    · simp only [candidatesD, hm2]
      rw [if_pos (by simp : ([b, a] : List FSFile).length > 1)]
      simp only [List.insertionSort, List.orderedInsert]
      rw [if_pos hle2]
      simp

/-- C7 counterexample: two files with equal sort keys (same parsed
timestamp); listed in either order, the pass deletes whichever was
listed first — in the second listing it deletes `b_...` although
`a_...` precedes it lexically — so the candidate set is not
deterministic across listing orders and the tie is not broken by
filename order. -/
theorem C7_counterexample :
    purgeOldLogsGlobal
      [⟨"a_2024-01-01_00-00-00.log", some 1⟩,
       ⟨"b_2024-01-01_00-00-00.log", some 2⟩] 1 allOk =
      ["a_2024-01-01_00-00-00.log"] ∧
    purgeOldLogsGlobal
      [⟨"b_2024-01-01_00-00-00.log", some 2⟩,
       ⟨"a_2024-01-01_00-00-00.log", some 1⟩] 1 allOk =
      ["b_2024-01-01_00-00-00.log"] := by
  refine ⟨by decide, by decide⟩

/-- Witness for C7 on a concrete permutation with distinct keys: the
pass result is listing-order independent. -/
theorem C7_witness :
    purgeOldLogsGlobal demo2 1 allOk =
      purgeOldLogsGlobal demo2.reverse 1 allOk :=
  (C7_stable_sort_determinism 1 allOk "svc"
    (List.reverse_perm demo2).symm (by decide) (by decide)).1

/-- A file of the touched directory was already there or is the touched
file (by name). -/
theorem mem_touchFile {fs : List FSFile} {n : String} {k : Nat} {f : FSFile}
    (h : f ∈ touchFile fs n k) : f ∈ fs ∨ f.name = n := by
  simp only [touchFile] at h
  by_cases hc : fs.any (fun g => g.name == n) = true
  · rw [if_pos hc] at h
    exact Or.inl h
  · rw [if_neg hc] at h
    rcases List.mem_append.mp h with h | h
    · exact Or.inl h
    · rw [List.mem_singleton.mp h]
      exact Or.inr rfl

/-- After a touch, a file with the touched name is present. -/
theorem touchFile_contains (fs : List FSFile) (n : String) (k : Nat) :
    ∃ f ∈ touchFile fs n k, f.name = n := by
  simp only [touchFile]
  by_cases hc : fs.any (fun g => g.name == n) = true
  · rw [if_pos hc]
    rcases List.any_eq_true.mp hc with ⟨g, hg, hgn⟩
    exact ⟨g, hg, by simpa using hgn⟩
  · rw [if_neg hc]
    exact ⟨⟨n, some k⟩, by simp, rfl⟩

/-- Touching a name absent from the directory appends exactly one new
file. -/
theorem touchFile_fresh {fs : List FSFile} {n : String} {k : Nat}
    (h : ∀ f ∈ fs, ¬ f.name = n) :
    touchFile fs n k = fs ++ [⟨n, some k⟩] := by
  simp only [touchFile]
  rw [if_neg ?_]
  intro hc
  rcases List.any_eq_true.mp hc with ⟨g, hg, hgn⟩
  exact h g hg (by simpa using hgn)

/-- Touching twice is the same as touching once. -/
theorem touchFile_idem (fs : List FSFile) (n : String) (k : Nat) :
    touchFile (touchFile fs n k) n k = touchFile fs n k := by
  by_cases hc : fs.any (fun g => g.name == n) = true
  · have h1 : touchFile fs n k = fs := by
      simp only [touchFile]
      rw [if_pos hc]
    rw [h1]
    exact h1
  · have h1 : touchFile fs n k = fs ++ [⟨n, some k⟩] := by
      simp only [touchFile]
      rw [if_neg hc]
    rw [h1]
    simp only [touchFile]
    rw [if_pos ?_]
    refine List.any_eq_true.mpr ⟨⟨n, some k⟩, by simp, by simp⟩

/-- What remains after a pass is part of the previous directory. -/
theorem mem_applyDeletions {fs : List FSFile} {d : List String} {f : FSFile}
    (h : f ∈ applyDeletions fs d) : f ∈ fs :=
  (List.mem_filter.mp h).1

/-- Appending a matching file to the listing appends it to the global
match set. -/
theorem matchedGlobal_append_new {fs : List FSFile} {u : FSFile}
    (hu : matchesGlobal u.name = true) :
    matchedGlobal (fs ++ [u]) = matchedGlobal fs ++ [u] := by
  simp [matchedGlobal, List.filter_append, hu]

/-- Appending a matching file to the listing appends it to the scoped
match set. -/
theorem matchedScoped_append_new {mname : String} {fs : List FSFile}
    {u : FSFile} (hu : matchesScoped mname u.name = true) :
    matchedScoped mname (fs ++ [u]) = matchedScoped mname fs ++ [u] := by
  simp [matchedScoped, List.filter_append, hu]

/-- The retention pass a DynamicPrompt `setup_logger` call performs runs
over the directory with the session file touched into it, on both the
fresh and the repeat branch. -/
theorem setupDyn_deleted (mname nowStr : String) (nowKey : Nat)
    (hs : List Sink) (fs : List FSFile) (level : Nat) (whenStr : String)
    (bc keep : Nat) (ok : String → Bool) :
    (setupLoggerDyn mname nowStr nowKey hs fs level whenStr bc keep
        true ok).deleted =
      purgeOldLogsGlobal
        (touchFile fs (mname ++ "_" ++ nowStr ++ ".log") nowKey) keep ok := by
  simp only [setupLoggerDyn]
  by_cases hh : hs.isEmpty = true
  · rw [if_pos hh]
    simp [touchFile_idem]
  · rw [if_neg hh]
    simp

/-- C3 (amended): in the StaticPrompt variant, calling `setup_logger`
twice with the same module name creates exactly one log file and one
pair of sinks; the second call returns the same sinks, creates no new
file, and still performs a retention pass.  In the DynamicPrompt
variant the second call keeps the single pair of sinks and still runs
the pass, but its unconditional pre-touch places one additional
timestamped file in the directory the pass sees. -/
theorem C3_second_call_idempotent (mname now1 now2 : String) (k1 k2 : Nat)
    (fs : List FSFile) (level : Nat) (whenStr : String) (bc keep : Nat)
    (ok : String → Bool) (out1 out2 : SetupOutcome)
    (h1 : setupLoggerStat mname now1 k1 [] fs level whenStr bc keep ok =
      some out1)
    (h2 : setupLoggerStat mname now2 k2 out1.handlers out1.fs level whenStr
      bc keep ok = some out2) :
    out1.handlers.length = 2 ∧
    out2.handlers = out1.handlers ∧
    (∀ f ∈ out2.fs, f ∈ out1.fs) ∧
    purgeScoped mname out1.fs keep ok = some out2.deleted ∧
    (∀ f ∈ out1.fs, f ∈ fs ∨ f.name = mname ++ "_" ++ now1 ++ ".log") ∧
    (∀ (hs : List Sink) (fs' : List FSFile), ¬ hs.isEmpty = true →
      (setupLoggerDyn mname now2 k2 hs fs' level whenStr bc keep
          true ok).handlers = hs ∧
      ∃ f ∈ (setupLoggerDyn mname now2 k2 hs fs' level whenStr bc keep
          true ok).fsBeforePurge,
        f.name = mname ++ "_" ++ now2 ++ ".log") := by
  simp only [setupLoggerStat, List.isEmpty_nil, if_pos] at h1
  cases hp1 : purgeScoped mname
      (touchFile fs (mname ++ "_" ++ now1 ++ ".log") k1) keep ok with
  | none =>
    rw [hp1] at h1
    exact absurd h1 (by simp)
  | some d1 =>
    rw [hp1] at h1
    have hout1 : out1 = ⟨[⟨true, some (mname ++ "_" ++ now1 ++ ".log"),
        level, some bc, true, some whenStr, logFormat⟩,
        ⟨false, none, LOG_INFO, none, false, none, logFormat⟩],
        touchFile fs (mname ++ "_" ++ now1 ++ ".log") k1,
        applyDeletions (touchFile fs (mname ++ "_" ++ now1 ++ ".log") k1) d1,
        d1⟩ := (Option.some.inj h1).symm
    have hh1 : out1.handlers.length = 2 := by
      rw [hout1]
      rfl
    have hhne : ¬ out1.handlers.isEmpty = true := by
      rw [hout1]
      simp
    simp only [setupLoggerStat] at h2
    rw [if_neg hhne] at h2
    cases hp2 : purgeScoped mname out1.fs keep ok with
    | none =>
      rw [hp2] at h2
      exact absurd h2 (by simp)
    | some d2 =>
      rw [hp2] at h2
      have hout2 : out2 = ⟨out1.handlers, out1.fs,
          applyDeletions out1.fs d2, d2⟩ := (Option.some.inj h2).symm
      refine ⟨hh1, by rw [hout2], ?_, ?_, ?_, ?_⟩
      · intro f hf
        rw [hout2] at hf
        exact mem_applyDeletions hf
      · have hd2 : out2.deleted = d2 := by rw [hout2]
        rw [hd2]
      · intro f hf
        rw [hout1] at hf
        exact mem_touchFile (mem_applyDeletions hf)
      · intro hs fs' hne
        constructor
        · simp only [setupLoggerDyn]
          rw [if_neg hne]
        · simp only [setupLoggerDyn]
          rw [if_neg hne]
          simp only []
          exact touchFile_contains fs' (mname ++ "_" ++ now2 ++ ".log") k2

/-- C3 counterexample: two DynamicPrompt calls five seconds apart leave
two session files on disk — the repeat call's pre-touch creates a
second file, so "exactly one log file per module name per process"
fails for this variant (the sinks do stay a single pair). -/
theorem C3_counterexample :
    dynOut1.fs.map (fun f => f.name) = ["svc_2024-01-01_00-00-00.log"] ∧
    dynOut2.fs.map (fun f => f.name) =
      ["svc_2024-01-01_00-00-00.log", "svc_2024-01-01_00-00-05.log"] ∧
    dynOut2.handlers.length = 2 := by
  refine ⟨by decide, by decide, by decide⟩

/-- Witness for C3 on the concrete StaticPrompt two-call scenario. -/
theorem C3_witness :
    statOutcome1.handlers.length = 2 ∧
    purgeScoped "svc" statOutcome1.fs 10 allOk = some statOutcome2.deleted :=
  let h := C3_second_call_idempotent "svc" "2024-01-01_00-00-00"
    "2024-01-01_00-00-05" (encodeDT 2024 1 1 0 0 0) (encodeDT 2024 1 1 0 0 5)
    [] LOG_DEBUG "midnight" 7 10 allOk statOutcome1 statOutcome2
    (by decide) (by decide)
  ⟨h.1, h.2.2.2.1⟩

/-- C8: a first call attaches exactly two sinks — a time-rotating file
sink on the timestamped file, UTF-8, retaining `backupCount` rotations,
with minimum severity `level`; and a console sink at severity `INFO`
regardless of `level` — both with the line format
`%(asctime)s - %(levelname)s - %(name)s - %(message)s`. -/
theorem C8_sinks_configuration (mname nowStr : String) (nowKey : Nat)
    (fs : List FSFile) (level : Nat) (whenStr : String) (bc keep : Nat)
    (touchOk : Bool) (ok : String → Bool) :
    (setupLoggerDyn mname nowStr nowKey [] fs level whenStr bc keep
        touchOk ok).handlers =
      [⟨true, some (mname ++ "_" ++ nowStr ++ ".log"), level, some bc,
        true, some whenStr, logFormat⟩,
       ⟨false, none, LOG_INFO, none, false, none, logFormat⟩] ∧
    (∀ out, setupLoggerStat mname nowStr nowKey [] fs level whenStr bc keep
        ok = some out →
      out.handlers =
        [⟨true, some (mname ++ "_" ++ nowStr ++ ".log"), level, some bc,
          true, some whenStr, logFormat⟩,
         ⟨false, none, LOG_INFO, none, false, none, logFormat⟩]) := by
  constructor
  · simp [setupLoggerDyn]
  · intro out hout
    simp only [setupLoggerStat, List.isEmpty_nil, if_pos] at hout
    cases hp : purgeScoped mname
        (touchFile fs (mname ++ "_" ++ nowStr ++ ".log") nowKey) keep ok with
    | none =>
      rw [hp] at hout
      exact absurd hout (by simp)
    | some d =>
      rw [hp] at hout
      rw [← Option.some.inj hout]

/-- Witness for C8: the concrete first DynamicPrompt call carries
exactly the file sink (DEBUG, 7 rotations, UTF-8, midnight) and the
INFO console sink. -/
theorem C8_witness :
    dynOut1.handlers =
      [⟨true, some ("svc" ++ "_" ++ "2024-01-01_00-00-00" ++ ".log"),
        LOG_DEBUG, some 7, true, some "midnight", logFormat⟩,
       ⟨false, none, LOG_INFO, none, false, none, logFormat⟩] :=
  (C8_sinks_configuration "svc" "2024-01-01_00-00-00"
    (encodeDT 2024 1 1 0 0 0) [] LOG_DEBUG "midnight" 7 10 true allOk).1

/-- Core of the keep-budget argument: appending a strictly newest file
`u` to matched files `M` with pairwise-distinct keys, the first
`|M| + 1 - keep` sorted positions (for `1 ≤ keep ≤ |M|`) hold exactly
that many files, never `u`, and always every key-minimal file of `M`. -/
theorem purge_core_new_file (κ : FSFile → Nat) (M : List FSFile)
    (u : FSFile) (keep : Nat) (hk : 1 ≤ keep) (hcount : keep ≤ M.length)
    (hnd : (M.map κ).Nodup) (hold : ∀ f ∈ M, κ f < κ u) :
    ((List.insertionSort (keyLE κ) (M ++ [u])).take
        ((M ++ [u]).length - keep)).length = M.length + 1 - keep ∧
    ¬ u ∈ (List.insertionSort (keyLE κ) (M ++ [u])).take
        ((M ++ [u]).length - keep) ∧
    (∀ f ∈ M, (∀ g ∈ M, κ f ≤ κ g) →
      f ∈ (List.insertionSort (keyLE κ) (M ++ [u])).take
        ((M ++ [u]).length - keep)) := by
  have hlenMU : (M ++ [u]).length = M.length + 1 := by simp
  have hndMU : ((M ++ [u]).map κ).Nodup := by
    rw [List.map_append]
    refine List.nodup_append.mpr ⟨hnd, List.nodup_singleton _, ?_⟩
    intro x hx hxu
    rcases List.mem_map.mp hx with ⟨f, hf, hfx⟩
    rcases List.mem_map.mp hxu with ⟨g, hg, hgx⟩
    have hgu : g = u := List.mem_singleton.mp hg
    have heq : κ f = κ u := by rw [hfx, ← hgx, hgu]
    have hlt := hold f hf
    rw [heq] at hlt
    exact Nat.lt_irrefl (κ u) hlt
  have hperm := sortBy_perm κ (M ++ [u])
  have hsorted := sortBy_sorted κ (M ++ [u])
  have hslen : (List.insertionSort (keyLE κ) (M ++ [u])).length =
      M.length + 1 := by
    rw [List.length_insertionSort, hlenMU]
  refine ⟨?_, ?_, ?_⟩
  · rw [List.length_take, hslen, hlenMU]
    exact Nat.min_eq_left (Nat.sub_le _ _)
  · intro hu_take
    have hdroppos : 0 < ((List.insertionSort (keyLE κ) (M ++ [u])).drop
        ((M ++ [u]).length - keep)).length := by
      rw [List.length_drop, hslen, hlenMU]
      omega
    rcases List.exists_mem_of_length_pos hdroppos with ⟨g, hg⟩
    have hle : keyLE κ u g := sorted_take_le_drop hsorted _ u hu_take g hg
    have hgmem : g ∈ M ++ [u] := hperm.mem_iff.mp (List.mem_of_mem_drop hg)
    rcases List.mem_append.mp hgmem with hgM | hgu
    · exact absurd hle (Nat.not_le_of_lt (hold g hgM))
    · have hgu' : g = u := List.mem_singleton.mp hgu
      have hnodup : ((List.insertionSort (keyLE κ) (M ++ [u])).take
          ((M ++ [u]).length - keep) ++
          (List.insertionSort (keyLE κ) (M ++ [u])).drop
          ((M ++ [u]).length - keep)).Nodup := by
        rw [List.take_append_drop]
        exact (((hperm.map κ).nodup_iff).mpr hndMU).of_map
      exact (List.nodup_append.mp hnodup).2.2 hu_take (hgu' ▸ hg)
  · intro f hfM hmin
    have hminStrict : ∀ g ∈ M ++ [u], g ≠ f → κ f < κ g := by
      intro g hg hne
      rcases List.mem_append.mp hg with hgM | hgu
      · refine Nat.lt_of_le_of_ne (hmin g hgM) ?_
        intro hkeq
        exact hne (List.inj_on_of_nodup_map hnd hgM hfM hkeq.symm)
      · rw [List.mem_singleton.mp hgu]
        exact hold f hfM
    rcases sorted_head_of_strict_min κ (M ++ [u]) f
        (List.mem_append.mpr (Or.inl hfM)) hminStrict with ⟨t, ht⟩
    have hpos : 0 < (M ++ [u]).length - keep := by
      rw [hlenMU]
      omega
    obtain ⟨m', hm'⟩ : ∃ m', (M ++ [u]).length - keep = m' + 1 :=
      ⟨(M ++ [u]).length - keep - 1, (Nat.succ_pred_eq_of_pos hpos).symm⟩
    rw [ht, hm', List.take_succ_cons]
    exact List.mem_cons_self f _

/-- C9 (amended): the session file pre-touched by `setup_logger`
matches the global selector and joins the candidate pool of the
retention pass run later in the same call, so it counts toward the keep
budget: when the directory already holds `k` matched files with
`keep ≤ k` (`keep ≥ 1`), all strictly older than the new file and with
distinct keys, the in-call pass sees `k + 1` candidates, deletes
exactly `k + 1 - keep` of them — always including the oldest
pre-existing file — and never deletes the new session file.  Under the
scoped selector the new file likewise joins the matched pool. -/
theorem C9_new_file_counts_toward_keep (mname nowStr : String)
    (nowKey : Nat) (fs : List FSFile) (keep : Nat) (ok : String → Bool)
    (hpn : parseTimestampFromFilename (mname ++ "_" ++ nowStr ++ ".log") =
      some nowKey)
    (hmatch : matchesGlobal (mname ++ "_" ++ nowStr ++ ".log") = true)
    (hnotin : ∀ f ∈ fs, ¬ f.name = mname ++ "_" ++ nowStr ++ ".log")
    (hold : ∀ f ∈ matchedGlobal fs, sortKeyD f < nowKey)
    (hnd : ((matchedGlobal fs).map sortKeyD).Nodup)
    (hok : ∀ f ∈ matchedGlobal fs, ok f.name = true)
    (hk : 1 ≤ keep) (hcount : keep ≤ (matchedGlobal fs).length) :
    matchedGlobal (touchFile fs (mname ++ "_" ++ nowStr ++ ".log") nowKey) =
      matchedGlobal fs ++
        [⟨mname ++ "_" ++ nowStr ++ ".log", some nowKey⟩] ∧
    (purgeOldLogsGlobal
        (touchFile fs (mname ++ "_" ++ nowStr ++ ".log") nowKey) keep
        ok).length = (matchedGlobal fs).length + 1 - keep ∧
    ¬ (mname ++ "_" ++ nowStr ++ ".log") ∈ purgeOldLogsGlobal
        (touchFile fs (mname ++ "_" ++ nowStr ++ ".log") nowKey) keep ok ∧
    (∀ f ∈ matchedGlobal fs,
      (∀ g ∈ matchedGlobal fs, sortKeyD f ≤ sortKeyD g) →
      f.name ∈ purgeOldLogsGlobal
        (touchFile fs (mname ++ "_" ++ nowStr ++ ".log") nowKey) keep ok) ∧
    (∀ (hs : List Sink) (level : Nat) (whenStr : String) (bc : Nat),
      (setupLoggerDyn mname nowStr nowKey hs fs level whenStr bc keep
          true ok).deleted =
        purgeOldLogsGlobal
          (touchFile fs (mname ++ "_" ++ nowStr ++ ".log") nowKey) keep ok) ∧
    (matchesScoped mname (mname ++ "_" ++ nowStr ++ ".log") = true →
      matchedScoped mname
          (touchFile fs (mname ++ "_" ++ nowStr ++ ".log") nowKey) =
        matchedScoped mname fs ++
          [⟨mname ++ "_" ++ nowStr ++ ".log", some nowKey⟩]) := by
  have htouch : touchFile fs (mname ++ "_" ++ nowStr ++ ".log") nowKey =
      fs ++ [⟨mname ++ "_" ++ nowStr ++ ".log", some nowKey⟩] :=
    touchFile_fresh hnotin
  have hma : matchedGlobal
      (fs ++ [⟨mname ++ "_" ++ nowStr ++ ".log", some nowKey⟩]) =
      matchedGlobal fs ++
        [⟨mname ++ "_" ++ nowStr ++ ".log", some nowKey⟩] :=
    matchedGlobal_append_new hmatch
  have hkeyu : sortKeyD ⟨mname ++ "_" ++ nowStr ++ ".log", some nowKey⟩ =
      nowKey := sortKeyD_of_parse hpn
  have hold' : ∀ f ∈ matchedGlobal fs, sortKeyD f <
      sortKeyD ⟨mname ++ "_" ++ nowStr ++ ".log", some nowKey⟩ := by
    rw [hkeyu]
    exact hold
  have hcore := purge_core_new_file sortKeyD (matchedGlobal fs)
    ⟨mname ++ "_" ++ nowStr ++ ".log", some nowKey⟩ keep hk hcount hnd hold'
  have hcand : candidatesD
      (touchFile fs (mname ++ "_" ++ nowStr ++ ".log") nowKey) keep =
      (List.insertionSort (keyLE sortKeyD) (matchedGlobal fs ++
        [⟨mname ++ "_" ++ nowStr ++ ".log", some nowKey⟩])).take
        ((matchedGlobal fs ++
          [(⟨mname ++ "_" ++ nowStr ++ ".log", some nowKey⟩ : FSFile)]).length -
          keep) := by
    rw [candidatesD_eq, htouch, hma]
  have hcand_sub : ∀ c ∈ candidatesD
      (touchFile fs (mname ++ "_" ++ nowStr ++ ".log") nowKey) keep,
      c ∈ matchedGlobal fs := by
    intro c hc
    rw [hcand] at hc
    have hcmem : c ∈ matchedGlobal fs ++
        [⟨mname ++ "_" ++ nowStr ++ ".log", some nowKey⟩] :=
      (sortBy_perm _ _).mem_iff.mp (List.mem_of_mem_take hc)
    rcases List.mem_append.mp hcmem with h | h
    · exact h
    · exfalso
      rw [List.mem_singleton.mp h] at hc
      exact hcore.2.1 hc
  have hfilter : (candidatesD
      (touchFile fs (mname ++ "_" ++ nowStr ++ ".log") nowKey) keep).filter
      (fun f => ok f.name) = candidatesD
      (touchFile fs (mname ++ "_" ++ nowStr ++ ".log") nowKey) keep :=
    List.filter_eq_self.mpr (fun c hc => hok c (hcand_sub c hc))
  refine ⟨by rw [htouch]; exact hma, ?_, ?_, ?_, ?_, ?_⟩
  · simp only [purgeOldLogsGlobal]
    rw [hfilter, List.length_map, hcand]
    exact hcore.1
  · intro hmem
    simp only [purgeOldLogsGlobal] at hmem
    rw [hfilter] at hmem
    rcases List.mem_map.mp hmem with ⟨g, hg, hgn⟩
    have hgm : g ∈ matchedGlobal fs := hcand_sub g hg
    exact hnotin g (List.mem_filter.mp hgm).1 hgn
  · intro f hf hmin
    have hf_cand : f ∈ candidatesD
        (touchFile fs (mname ++ "_" ++ nowStr ++ ".log") nowKey) keep := by
      rw [hcand]
      exact hcore.2.2 f hf hmin
    simp only [purgeOldLogsGlobal]
    rw [hfilter]
    exact List.mem_map.mpr ⟨f, hf_cand, rfl⟩
  · intro hs level whenStr bc
    exact setupDyn_deleted mname nowStr nowKey hs fs level whenStr bc keep ok
  · intro hmatchS
    rw [htouch]
    exact matchedScoped_append_new hmatchS

/-- C9 counterexample: with one pre-existing matched file and
`keep = 10`, the in-call pass does see `k + 1 = 2` candidates but
deletes nothing — the oldest pre-existing file survives — so the claim
fails for `k < keep`. -/
theorem C9_counterexample :
    (matchedGlobal dynOut2.fsBeforePurge).length = 2 ∧
    dynOut2.deleted = [] := by
  refine ⟨by decide, by decide⟩

/-- Witness for C9: touching the new session file into a three-file
directory with `keep = 2`, the pass deletes `3 + 1 - 2 = 2` files and
the new file is not among them. -/
theorem C9_witness :
    (purgeOldLogsGlobal
      (touchFile demo2 ("svc" ++ "_" ++ "2024-01-09_00-00-00" ++ ".log")
        (encodeDT 2024 1 9 0 0 0)) 2 allOk).length =
      (matchedGlobal demo2).length + 1 - 2 ∧
    ¬ ("svc" ++ "_" ++ "2024-01-09_00-00-00" ++ ".log") ∈
      purgeOldLogsGlobal
        (touchFile demo2 ("svc" ++ "_" ++ "2024-01-09_00-00-00" ++ ".log")
          (encodeDT 2024 1 9 0 0 0)) 2 allOk :=
  let h := C9_new_file_counts_toward_keep "svc" "2024-01-09_00-00-00"
    (encodeDT 2024 1 9 0 0 0) demo2 2 allOk (by decide) (by decide)
    (by decide) (by decide) (by decide) (by decide) (by decide) (by decide)
  ⟨h.2.1, h.2.2.1⟩
